import Mathlib

/-!
Shallow embedding of hydra's defaults-list composition engine
(`hydra/_internal/defaults_list.py` together with the `DefaultElement`
data model from `hydra/core/__init__.py`).

Python lists of mutable `DefaultElement` objects are modelled by an explicit
heap (`St.heap`, a list of element values indexed by allocation id) together
with lists of ids; in-place mutation of an element becomes `List.set` on the
heap, and `copy.deepcopy` becomes allocation of a fresh id.  The two shared
mutable tables threaded through the recursion (`group_to_choice` and
`delete_groups`) are insertion-ordered association lists, matching Python
dict semantics.  The recursion through `ConfigRepository.load_config` is
bounded by an explicit fuel parameter; running out of fuel is the
distinguished error `Err.fuel`.  A failing Python `assert` is the
distinguished error `Err.assertion`, kept separate from
`ConfigCompositionException` (`Err.composition`) and
`MissingConfigException` (`Err.missingConfig`).
-/

namespace Hydra

/-- The entry data model, from `hydra/core/__init__.py` (`DefaultElement`).
The fields `skip_load`, `skip_load_reason` and `primary` are referenced by
`defaults_list.py` but their declarations are not part of the sources;
they are modelled from the spec: `skip_load` marks an entry that
participates in ordering but whose config is not loaded (with a reason
string set by `set_skip_load`), and `primary` is the flag passed to the
repository as `is_primary_config`. -/
structure DefaultElement where
  config_name : Option String
  config_group : Option String := none
  optional : Bool := false
  package : Option String := none
  package2 : Option String := none
  from_override : Bool := false
  is_add_only : Bool := false
  is_delete : Bool := false
  is_deleted : Bool := false
  skip_load : Bool := false
  skip_load_reason : Option String := none
  primary : Bool := false
deriving Repr, DecidableEq, Inhabited

/-- Python `f"{x}"` of an `Optional[str]`: `None` prints as `"None"`. -/
def optStr : Option String → String
  | none => "None"
  | some s => s

namespace DefaultElement

/-- `DefaultElement.config_path` (the `assert config_name is not None` is
checked separately by the caller model in `computeBody`). -/
def config_path (e : DefaultElement) : String :=
  match e.config_group with
  | some g => g ++ "/" ++ optStr e.config_name
  | none => optStr e.config_name

/-- `DefaultElement.fully_qualified_group_name`. -/
def fully_qualified_group_name (e : DefaultElement) : String :=
  match e.package with
  | some p => optStr e.config_group ++ "@" ++ p
  | none => optStr e.config_group

/-- `DefaultElement.is_package_rename`. -/
def is_package_rename (e : DefaultElement) : Bool := e.package2.isSome

/-- `DefaultElement.get_subject_package`. -/
def get_subject_package (e : DefaultElement) : Option String :=
  match e.package2 with
  | some p => some p
  | none => e.package

end DefaultElement

/-- Modelled from the spec: omegaconf's interpolation detection
(`AnyNode(...)._is_interpolation()`, not part of this repository) — a
string is an unresolved reference expression when it contains the
interpolation opener `$` followed by an opening brace. -/
def interpMarker : List Char → Bool
  | [] => false
  | [_] => false
  | a :: b :: rest => (a == '$' && b == Char.ofNat 123) || interpMarker (b :: rest)

/-- `DefaultElement.is_interpolation`; see `interpMarker`. -/
def DefaultElement.is_interpolation (e : DefaultElement) : Bool :=
  match e.config_name with
  | some s => interpMarker s.data
  | none => false

/-- `DeleteKey` from `defaults_list.py`. -/
structure DeleteKey where
  fqgn : String
  config_name : Option String
  must_delete : Bool
deriving Repr, DecidableEq

/-- `DeleteKey.__repr__`. -/
def DeleteKey.reprStr (k : DeleteKey) : String :=
  match k.config_name with
  | none => k.fqgn
  | some n => k.fqgn ++ "=" ++ n

/-- Error outcomes: `ConfigCompositionException`, `MissingConfigException`,
a failing Python `assert`, and exhaustion of the recursion fuel. -/
inductive Err where
  | fuel
  | assertion
  | composition (msg : String)
  | missingConfig (file : Option String) (msg : String)
deriving Repr, DecidableEq

/-- The mutable state threaded through one top-level composition call:
the element heap, the `group_to_choice` map (insertion-ordered, values are
the stored `config_name`s) and the `delete_groups` table. -/
structure St where
  heap : List DefaultElement
  gtc : List (String × Option String)
  dg : List (DeleteKey × Nat)
deriving Repr, DecidableEq

def heapGet (st : St) (i : Nat) : DefaultElement := st.heap.getD i default

def setElem (st : St) (i : Nat) (e : DefaultElement) : St :=
  { st with heap := st.heap.set i e }

def alloc (st : St) (e : DefaultElement) : St × Nat :=
  ({ st with heap := st.heap ++ [e] }, st.heap.length)

def allocAll : St → List DefaultElement → St × List Nat
  | st, [] => (st, [])
  | st, e :: es =>
    let p := alloc st e
    let q := allocAll p.1 es
    (q.1, p.2 :: q.2)

def gtcContains (g : List (String × Option String)) (k : String) : Bool :=
  g.any (fun p => p.1 == k)

def gtcGet (g : List (String × Option String)) (k : String) : Option String :=
  match g.find? (fun p => p.1 == k) with
  | some p => p.2
  | none => none

def gtcAdd (g : List (String × Option String)) (k : String) (v : Option String) :
    List (String × Option String) :=
  g ++ [(k, v)]

def dgContains (dg : List (DeleteKey × Nat)) (k : DeleteKey) : Bool :=
  dg.any (fun p => p.1 == k)

def dgAdd (dg : List (DeleteKey × Nat)) (k : DeleteKey) : List (DeleteKey × Nat) :=
  dg ++ [(k, 0)]

/-- One delete key matching one element (the two nested conditionals of
`delete_if_matching`'s loop body). -/
def deleteMatches (k : DeleteKey) (v : DefaultElement) : Bool :=
  k.fqgn == v.fully_qualified_group_name &&
    (match k.config_name with
     | none => true
     | some n => some n == v.config_name)

/-- Loop of `delete_if_matching`: walks the `delete_groups` table in order;
every matching key is incremented and marks the element deleted/skipped. -/
def difmAux (i : Nat) : List (DeleteKey × Nat) → List DefaultElement →
    List (DeleteKey × Nat) × List DefaultElement × Bool
  | [], heap => ([], heap, false)
  | (k, c) :: rest, heap =>
    let v := heap.getD i default
    if deleteMatches k v then
      let heap' := heap.set i
        { v with is_deleted := true, skip_load := true,
                 skip_load_reason := some "deleted_from_list" }
      let r := difmAux i rest heap'
      ((k, c + 1) :: r.1, r.2.1, true)
    else
      let r := difmAux i rest heap
      ((k, c) :: r.1, r.2.1, r.2.2)

/-- `delete_if_matching(delete_groups, d)`. -/
def delete_if_matching (st : St) (i : Nat) : Bool × St :=
  let r := difmAux i st.dg st.heap
  (r.2.2, { st with heap := r.2.1, dg := r.1 })

/-- Loop of `_validate_self`: walks the effective list, errors on a second
`_self_`, asserts the `_self_` entry has no group, and overwrites its group
and package with the enclosing element's.  Returns the updated heap. -/
def validateSelfAux (elemV : DefaultElement) :
    Bool → List DefaultElement → List Nat → Except Err (List DefaultElement)
  | _, heap, [] => .ok heap
  | hasSelf, heap, i :: rest =>
    let v := heap.getD i default
    if v.config_name = some "_self_" then
      if hasSelf then
        .error (.composition ("Duplicate _self_ defined in " ++ elemV.config_path))
      else if v.config_group ≠ none then .error .assertion
      else
        validateSelfAux elemV true
          (heap.set i { v with config_group := elemV.config_group, package := elemV.package })
          rest
    else validateSelfAux elemV hasSelf heap rest

/-- `_validate_self(element, defaults)`: validate/normalize the `_self_`
entry of `defaults.effective`, inserting an implicit leading self (a copy of
the element with `config_name = "_self_"` and `from_override = False`) when
none is present.  Returns the new effective id list. -/
def validate_self (elemV : DefaultElement) (ids : List Nat) (st : St) :
    Except Err (List Nat × St) :=
  match validateSelfAux elemV false st.heap ids with
  | .error e => .error e
  | .ok heap' =>
    if ids.any (fun i => (heap'.getD i default).config_name == some "_self_") then
      .ok (ids, { st with heap := heap' })
    else
      let me := { elemV with config_name := some "_self_", from_override := false }
      let p := alloc { st with heap := heap' } me
      .ok (p.2 :: ids, p.1)

/-- `_find_match_before(defaults, like)`: scan from the start, stop at the
first entry equal (by value) to `like`, return the first earlier entry with
the same fully-qualified group name. -/
def find_match_before (heap : List DefaultElement) (likeV : DefaultElement) :
    List Nat → Option Nat
  | [] => none
  | i :: rest =>
    let v := heap.getD i default
    if v = likeV then none
    else if v.fully_qualified_group_name = likeV.fully_qualified_group_name then some i
    else find_match_before heap likeV rest

/-- Loop of `_verify_no_add_conflicts`, iterating the reversed list. -/
def vnacAux (heap : List DefaultElement) (all : List Nat) :
    List Nat → Except Err Unit
  | [] => .ok ()
  | i :: rest =>
    let v := heap.getD i default
    if v.from_override && !v.is_delete then
      let fqgn := v.fully_qualified_group_name
      let m := find_match_before heap v all
      if v.is_add_only && m.isSome then
        .error (.composition ("Could not add \x27" ++ fqgn ++ "=" ++ optStr v.config_name
          ++ "\x27. \x27" ++ fqgn ++ "\x27 is already in the defaults list."))
      else if !v.is_add_only && m.isNone then
        .error (.composition ("Could not override \x27" ++ fqgn
          ++ "\x27. No match in the defaults list.\nTo append to your default list use +"
          ++ fqgn ++ "=" ++ optStr v.config_name))
      else vnacAux heap all rest
    else vnacAux heap all rest

/-- `_verify_no_add_conflicts(defaults)`. -/
def verify_no_add_conflicts (heap : List DefaultElement) (ids : List Nat) :
    Except Err Unit :=
  vnacAux heap ids ids.reverse

/-- `is_matching(rename, other)`. -/
def is_matching (ren : DefaultElement) (other : DefaultElement) : Bool :=
  if ren.config_group ≠ other.config_group then false
  else if ren.package = other.package then true
  else false

/-- Position (index) of the last package-rename directive in the list. -/
def lastRenameIdx (heap : List DefaultElement) : List Nat → Option Nat
  | [] => none
  | i :: rest =>
    match lastRenameIdx heap rest with
    | some j => some (j + 1)
    | none => if (heap.getD i default).is_package_rename then some 0 else none

/-- Inner loop of `_process_renames`: rewrite the package of every entry
matching the popped rename directive; the flag records whether any matched. -/
def renameApply (renV : DefaultElement) : List DefaultElement → List Nat →
    List DefaultElement × Bool
  | heap, [] => (heap, false)
  | heap, i :: rest =>
    let v := heap.getD i default
    if is_matching renV v then
      let r := renameApply renV
        (heap.set i { v with package := renV.get_subject_package }) rest
      (r.1, true)
    else renameApply renV heap rest

/-- `_process_renames(defaults)` (`while True` bounded by the list length:
each iteration pops one rename directive). -/
def prAux : Nat → List DefaultElement → List Nat →
    Except Err (List Nat × List DefaultElement)
  | 0, heap, ids => .ok (ids, heap)
  | fu + 1, heap, ids =>
    match lastRenameIdx heap ids with
    | none => .ok (ids, heap)
    | some idx =>
      let renV := heap.getD (ids.getD idx 0) default
      let ids' := ids.eraseIdx idx
      let r := renameApply renV heap ids'
      if r.2 then prAux fu r.1 ids'
      else
        .error (.composition ("Could not rename package. No match for \x27"
          ++ optStr renV.config_group ++ "@" ++ optStr renV.package
          ++ "\x27 in the defaults list"))

/-- `_process_renames(defaults)`. -/
def process_renames (heap : List DefaultElement) (ids : List Nat) :
    Except Err (List Nat × List DefaultElement) :=
  prAux ids.length heap ids

/-- Deduplication pass at the end of `_expand_defaults_list_impl`: keep the
first occurrence per fully-qualified group name, marking a group as seen
only when the entry is not flagged `is_deleted`; ungrouped entries always
pass through. -/
def dedupAux (heap : List DefaultElement) : List String → List Nat → List Nat
  | _, [] => []
  | seen, i :: rest =>
    let v := heap.getD i default
    match v.config_group with
    | some _ =>
      let fqgn := v.fully_qualified_group_name
      if seen.contains fqgn then dedupAux heap seen rest
      else if v.is_deleted then i :: dedupAux heap seen rest
      else i :: dedupAux heap (fqgn :: seen) rest
    | none => i :: dedupAux heap seen rest

/-- The legacy `group_to_choice2` view: the choice map plus a positional
projection of the original (pre-expansion) defaults, `(group?, name)` per
entry. -/
structure Gtc2 where
  choices : List (String × Option String)
  defaultsView : List (Option String × Option String)
deriving Repr, DecidableEq

def buildGtc2 (gtc : List (String × Option String)) (orig : List DefaultElement) : Gtc2 :=
  ⟨gtc, orig.map (fun d => (d.config_group, d.config_name))⟩

/-- Modelled from the spec: omegaconf resolution of a deferred
interpolation against the legacy `group_to_choice2` view (the omegaconf
resolver is not part of this repository).  Only the simple
`$`-brace-key-brace form resolving a key of the choice map is supported;
anything else is a resolution failure. -/
def parseInterpKey : List Char → Option (List Char)
  | [] => none
  | c :: rest =>
    if c = Char.ofNat 125 then some []
    else (parseInterpKey rest).map (c :: ·)

/-- See `parseInterpKey`; modelled from the spec. -/
def resolveInterp (g2 : Gtc2) (s : String) : Except Err (Option String) :=
  match s.data with
  | a :: b :: rest =>
    if a = '$' ∧ b = Char.ofNat 123 then
      match parseInterpKey rest with
      | some key =>
        match g2.choices.find? (fun p => p.1 == String.mk key) with
        | some p => .ok p.2
        | none => .error .assertion
      | none => .error .assertion
    else .error .assertion
  | _ => .error .assertion

/-- Step 6 of the main loop: scan a produced sublist in reverse and record
each eligible sub-entry's `(fqgn, config_name)` into `group_to_choice`
when the group has no recorded choice yet. -/
def regAux (heap : List DefaultElement) (dInterp : Bool) :
    List Nat → List (String × Option String) → List (String × Option String)
  | [], gtc => gtc
  | j :: rest, gtc =>
    let v := heap.getD j default
    let gtc' :=
      if v.config_group.isSome && !(v.config_name == some "_keep_")
          && !v.is_delete && !v.skip_load then
        let f := v.fully_qualified_group_name
        if !(gtcContains gtc f) && !dInterp then gtcAdd gtc f v.config_name else gtc
      else gtc
    regAux heap dInterp rest gtc'

/-- `LoadedConfig`: the loader collaborator exposes the fragment's own
declared defaults list (spec section on the loader boundary). -/
structure LoadedConfig where
  defaults_list : List DefaultElement
deriving Repr, DecidableEq

/-- A repository source, used only for diagnostic text (`get_sources`);
`display` stands for Python's `repr(src)`. -/
structure ConfigSource where
  provider : String
  display : String
deriving Repr, DecidableEq

/-- The `ConfigRepository` collaborator boundary. -/
structure Repo where
  load : String → Bool → Option LoadedConfig
  sources : List ConfigSource

/-- `missing_config_error`'s message construction (`with_search_path=True`):
append the non-schema sources, one per line. -/
def searchPathMsg (repo : Repo) (msg : String) : String :=
  let descs := (repo.sources.filter (fun s => !(s.provider == "schema"))).map
    (fun s => "\t" ++ s.display)
  msg ++ "\nSearch path:" ++ "\n" ++ String.intercalate "\n" descs

/-- `missing_config_error(repo, config_name, msg, with_search_path)` as the
raised `MissingConfigException` value. -/
def missing_config_error (repo : Repo) (cfgName : String) (msg : String)
    (withSearchPath : Bool) : Err :=
  .missingConfig (some cfgName) (if withSearchPath then searchPathMsg repo msg else msg)

/-- The main loop of `_expand_defaults_list_impl` over the reversed
effective list (the caller passes `effective.reverse`), returning the
per-entry sublists in processing order, the deferred-override queue in
append order, and the final state. -/
def mainLoop (compute : Nat → St → Except Err (List Nat × St))
    (selfName : Option String) :
    List Nat → St → Except Err (List (List Nat) × List Nat × St)
  | [], st => .ok ([], [], st)
  | i :: rest, st =>
    let v := heapGet st i
    let fqgn := v.fully_qualified_group_name
    let branch : Except Err (List Nat × List Nat × Nat × St) :=
      if v.config_name = some "_self_" then
        match selfName with
        | none =>
          .error (.composition
            "self_name is not specified and defaults list contains a _self_ item")
        | some sn =>
          let newName : Option String :=
            if gtcContains st.gtc fqgn then gtcGet st.gtc fqgn else some sn
          let p := alloc st { v with config_name := newName }
          .ok ([p.2], [], p.2, p.1)
      else if v.is_package_rename then .ok ([i], [], i, st)
      else if v.is_delete then
        let key : DeleteKey :=
          ⟨fqgn, if v.config_name = some "_delete_" then none else v.config_name,
            v.from_override⟩
        let st' := if dgContains st.dg key then st else { st with dg := dgAdd st.dg key }
        .ok ([i], [], i, st')
      else if v.from_override then .ok ([i], [i], i, st)
      else if v.is_interpolation then .ok ([i], [i], i, st)
      else
        let r := delete_if_matching st i
        if r.1 then .ok ([i], [], i, r.2)
        else
          let st2 :=
            if gtcContains r.2.gtc fqgn then
              setElem r.2 i { heapGet r.2 i with config_name := gtcGet r.2.gtc fqgn }
            else r.2
          match compute i st2 with
          | .error e => .error e
          | .ok (sub, st3) => .ok (sub, [], i, st3)
    match branch with
    | .error e => .error e
    | .ok (added, defAdd, dCur, st') =>
      let dInterp := (heapGet st' dCur).is_interpolation
      let gtc' := regAux st'.heap dInterp added.reverse st'.gtc
      match mainLoop compute selfName rest { st' with gtc := gtc' } with
      | .error e => .error e
      | .ok (subs, defs, stF) => .ok (added :: subs, defAdd ++ defs, stF)

/-- First position in `result` holding an element value-equal to `v`
(Python's `result.index(d)`). -/
def idxOfValue (heap : List DefaultElement) (v : DefaultElement) :
    List Nat → Option Nat
  | [] => none
  | i :: rest =>
    if heap.getD i default = v then some 0
    else (idxOfValue heap v rest).map (· + 1)

/-- The deferred-override expansion loop at the end of
`_expand_defaults_list_impl`: resolve a deferred interpolation in place,
expand the entry via the loader, and splice the produced sublist in front
of the placeholder's first value-equal position. -/
def deferredLoop (compute : Nat → St → Except Err (List Nat × St)) (g2 : Gtc2) :
    List Nat → List Nat → St → Except Err (List Nat × St)
  | [], result, st => .ok (result, st)
  | i :: rest, result, st =>
    let v0 := heapGet st i
    let step : Except Err St :=
      if v0.is_interpolation then
        if v0.config_group = none then .error .assertion
        else
          match v0.config_name with
          | some s =>
            match resolveInterp g2 s with
            | .error e => .error e
            | .ok newName => .ok (setElem st i { v0 with config_name := newName })
          | none => .error .assertion
      else .ok st
    match step with
    | .error e => .error e
    | .ok st1 =>
      match compute i st1 with
      | .error e => .error e
      | .ok (sub, st2) =>
        match idxOfValue st2.heap (heapGet st2 i) result with
        | none => .error .assertion
        | some idx =>
          deferredLoop compute g2 rest (result.take idx ++ sub ++ result.drop idx) st2

/-- `_expand_defaults_list_impl(self_name, defaults_list, group_to_choice,
delete_groups, repo)`, parameterized by the recursive element expansion. -/
def expandBody (compute : Nat → St → Except Err (List Nat × St))
    (selfName : Option String) (origVals : List DefaultElement)
    (effIds : List Nat) (st : St) : Except Err (List Nat × St) :=
  match mainLoop compute selfName effIds.reverse st with
  | .error e => .error e
  | .ok (subs, deferred, st1) =>
    let result := subs.reverse.flatten
    match process_renames st1.heap result with
    | .error e => .error e
    | .ok (result2, heap2) =>
      let st2 := { st1 with heap := heap2 }
      match verify_no_add_conflicts st2.heap result2 with
      | .error e => .error e
      | .ok _ =>
        let g2 := buildGtc2 st2.gtc origVals
        match deferredLoop compute g2 deferred result2 st2 with
        | .error e => .error e
        | .ok (result3, st3) => .ok (dedupAux st3.heap [] result3, st3)

/-- `_compute_element_defaults_list_impl(element, ...)` at one fuel level,
parameterized by the next level's element expansion. -/
def computeBody (repo : Repo)
    (prevCompute : Nat → St → Except Err (List Nat × St))
    (i : Nat) (st : St) : Except Err (List Nat × St) :=
  let r := delete_if_matching st i
  if r.1 then .ok ([], r.2)
  else
    let st1 := r.2
    let v := heapGet st1 i
    match v.config_name with
    | none => .error .assertion
    | some _ =>
      match repo.load v.config_path v.primary with
      | none =>
        if v.optional then
          .ok ([i], setElem st1 i
            { v with skip_load := true, skip_load_reason := some "missing_optional_config" })
        else
          .error (missing_config_error repo v.config_path
            ("Cannot find config : " ++ v.config_path
              ++ ", check that it\x27s in your config search path") true)
      | some loaded =>
        let origVals := loaded.defaults_list
        let p := allocAll st1 origVals
        match validate_self v p.2 p.1 with
        | .error e => .error e
        | .ok (effIds, st2) =>
          expandBody prevCompute v.config_name origVals effIds st2

/-- `_compute_element_defaults_list_impl` with explicit recursion fuel
(defined by `Nat.rec` so that concrete runs reduce in the kernel). -/
def computeImpl (repo : Repo) : Nat → Nat → St → Except Err (List Nat × St) :=
  fun fuel =>
    Nat.rec (motive := fun _ => Nat → St → Except Err (List Nat × St))
      (fun _ _ => .error .fuel)
      (fun _ prev => fun i st => computeBody repo prev i st)
      fuel

/-- `_post_process_deletes`, error half: the first registered `DeleteKey`
with zero matches and `must_delete` raises. -/
def post_process_deletes (dg : List (DeleteKey × Nat)) : Except Err Unit :=
  match dg.find? (fun p => p.2 == 0 && p.1.must_delete) with
  | some p =>
    .error (.composition ("Could not delete. No match for \x27"
      ++ p.1.reprStr ++ "\x27 in the defaults list."))
  | none => .ok ()

/-- `_post_process_deletes` as a whole: validate the delete bookkeeping and
strip the delete-directive entries from the list. -/
def post_process_and_strip (heap : List DefaultElement)
    (dg : List (DeleteKey × Nat)) (ids : List Nat) : Except Err (List Nat) :=
  match post_process_deletes dg with
  | .error e => .error e
  | .ok _ => .ok (ids.filter (fun i => !(heap.getD i default).is_delete))

/-- `compute_element_defaults_list(element, repo)`. -/
def compute_element_defaults_list (fuel : Nat) (element : DefaultElement)
    (repo : Repo) : Except Err (List DefaultElement) :=
  let st0 : St := ⟨[element], [], []⟩
  match computeImpl repo fuel 0 st0 with
  | .error e => .error e
  | .ok (ids, st) =>
    match post_process_and_strip st.heap st.dg ids with
    | .error e => .error e
    | .ok ids2 => .ok (ids2.map (fun i => st.heap.getD i default))

/-- The seeding pre-pass of `_expand_defaults_list` over the reversed input
list: register delete keys and the last-declared choice per group. -/
def prePassAux : List DefaultElement → List (String × Option String) →
    List (DeleteKey × Nat) → List (String × Option String) × List (DeleteKey × Nat)
  | [], gtc, dg => (gtc, dg)
  | d :: rest, gtc, dg =>
    if d.is_delete then
      let key : DeleteKey :=
        ⟨d.fully_qualified_group_name,
          if d.config_name = some "_delete_" then none else d.config_name,
          d.from_override⟩
      let dg' :=
        if dgContains dg key then dg.map (fun p => if p.1 == key then (p.1, 0) else p)
        else dgAdd dg key
      prePassAux rest gtc dg'
    else
      let gtc' :=
        if d.config_group.isSome && !(gtcContains gtc d.fully_qualified_group_name) then
          gtcAdd gtc d.fully_qualified_group_name d.config_name
        else gtc
      prePassAux rest gtc' dg

/-- `_expand_defaults_list(self_name, defaults, repo)`.  The second
component of the result is the final state of the caller's `defaults` list
(`DefaultsList.effective`), whose elements the Python code mutates in
place. -/
def expand_defaults_list_full (fuel : Nat) (selfName : Option String)
    (defaults : List DefaultElement) (repo : Repo) :
    Except Err (List DefaultElement × List DefaultElement) :=
  let pp := prePassAux defaults.reverse [] []
  let effIds := List.range defaults.length
  let st0 : St := ⟨defaults, pp.1, pp.2⟩
  match expandBody (computeImpl repo fuel) selfName defaults effIds st0 with
  | .error e => .error e
  | .ok (ids, st) =>
    match post_process_and_strip st.heap st.dg ids with
    | .error e => .error e
    | .ok ids2 =>
      .ok (ids2.map (fun i => st.heap.getD i default),
        effIds.map (fun i => st.heap.getD i default))

/-- `expand_defaults_list(defaults, repo)` — the public entry point passes
`self_name=None`. -/
def expand_defaults_list (fuel : Nat) (defaults : List DefaultElement)
    (repo : Repo) : Except Err (List DefaultElement) :=
  (expand_defaults_list_full fuel none defaults repo).map Prod.fst

/-! ## Concrete fixtures used by the theorems -/

/-- `a=a1`: a plain grouped entry. -/
def elA1 : DefaultElement := { config_name := some "a1", config_group := some "a" }

/-- `a=a2`: a plain grouped entry. -/
def elA2 : DefaultElement := { config_name := some "a2", config_group := some "a" }

/-- `~a` from an override: a delete directive. -/
def delA : DefaultElement :=
  { config_name := some "_delete_", config_group := some "a",
    from_override := true, is_delete := true }

/-- A repository where `a/a2`, `q` are empty fragments and `p` declares
the single nested default `a=a1`. -/
def repoC : Repo :=
  ⟨fun p _ =>
    if p = "a/a2" then some ⟨[]⟩
    else if p = "q" then some ⟨[]⟩
    else if p = "p" then some ⟨[elA1]⟩
    else none, []⟩

/-- A repository whose fragment `root` declares two `_self_` entries, the
first of them carrying a config group, and whose fragment `root2` declares
a single `_self_` entry carrying a config group. -/
def repoSelf : Repo :=
  ⟨fun p _ =>
    if p = "root" then
      some ⟨[{ config_name := some "_self_", config_group := some "g" },
             { config_name := some "_self_" }]⟩
    else if p = "root2" then
      some ⟨[{ config_name := some "_self_", config_group := some "g" }]⟩
    else none, []⟩

/-- Whether id `i`'s element is named `_self_` in `heap`. -/
def isSelfNamed (heap : List DefaultElement) (i : Nat) : Bool :=
  (heap.getD i default).config_name == some "_self_"

/-- A non-deleted grouped entry with fully-qualified group name `G`. -/
def survivorPred (G : String) (v : DefaultElement) : Bool :=
  v.config_group.isSome && !v.is_deleted && (v.fully_qualified_group_name == G)

/-- Number of non-deleted grouped entries with fully-qualified group name
`G` in a value list (the C1 dedup invariant counts these). -/
def survivorCount (G : String) (l : List DefaultElement) : Nat :=
  l.countP (survivorPred G)

/-- The per-entry condition under which override-conflict validation
accepts entry `i` of `ids`: an override-originated non-delete entry must
have no earlier same-group match (before its first value-equal occurrence)
when additive, and must have one when non-additive. -/
def addConflictFree (heap : List DefaultElement) (ids : List Nat) (i : Nat) : Prop :=
  (heap.getD i default).from_override = true →
  (heap.getD i default).is_delete = false →
  (((heap.getD i default).is_add_only = true →
      find_match_before heap (heap.getD i default) ids = none) ∧
   ((heap.getD i default).is_add_only = false →
      (find_match_before heap (heap.getD i default) ids).isSome = true))

/-- `a=n` as a plain (non-additive) override entry. -/
def ovrX : DefaultElement :=
  { config_name := some "n", config_group := some "a", from_override := true }

/-- A state whose heap holds a single optional entry `opt/m` that no
repository provides, used to witness the optional-missing branch. -/
def stOpt : St :=
  ⟨[{ config_name := some "m", config_group := some "opt", optional := true }], [], []⟩

/-- A bare `_self_` entry. -/
def selfPlain : DefaultElement := { config_name := some "_self_" }

/-- A repository whose fragment `root` declares `a=a1` followed by the
ungrouped fragment `p`, whose fragment `p` declares `a=a2`, and whose
fragment `a/a2` is empty — the mirrored two-depth scenario for C2. -/
def repoT : Repo :=
  ⟨fun p _ =>
    if p = "root" then some ⟨[elA1, { config_name := some "p" }]⟩
    else if p = "p" then some ⟨[elA2]⟩
    else if p = "a/a2" then some ⟨[]⟩
    else none, []⟩

/-! ## Claims -/

/-- **C10** — `expand_defaults_list` does not leave its input unchanged:
the caller's list is the mutable effective working copy and its elements
are mutated in place.  On `[a=a1, a=a2]` the first entry's `config_name`
is rewritten to the winning choice `a2`, so the final effective list
differs from the input; on `[~a, a=a2]` the second entry is flagged
`is_deleted` and `skip_load` (reason `deleted_from_list`), and the public
result is the projection of the same computation. -/
theorem claim10_input_mutation :
    expand_defaults_list_full 5 none [elA1, elA2] repoC =
      .ok ([elA2], [elA2, elA2]) ∧
    [elA2, elA2] ≠ [elA1, elA2] ∧
    elA1.config_name = some "a1" ∧ elA2.config_name = some "a2" ∧
    expand_defaults_list 5 [elA1, elA2] repoC = .ok [elA2] ∧
    expand_defaults_list_full 5 none [delA, elA2] repoC =
      .ok ([], [delA,
        { elA2 with is_deleted := true, skip_load := true,
                    skip_load_reason := some "deleted_from_list" }]) ∧
    elA2.is_deleted = false ∧ elA2.skip_load = false :=
  ⟨rfl, by decide, rfl, rfl, rfl, rfl, rfl, rfl⟩

/-- **C4 counterexample** — the public entry point `expand_defaults_list`
takes no root self name: it always passes `self_name=None`, so a seed list
containing a `_self_` entry raises the no-enclosing-context error even
though a caller could have supplied a name for it. -/
theorem claim4_counterexample :
    expand_defaults_list 1 [{ config_name := some "_self_" }] ⟨fun _ _ => none, []⟩ =
      .error (.composition
        "self_name is not specified and defaults list contains a _self_ item") := rfl

/-- **C4 amended** — the public `expand_defaults_list(defaults, repo)` has
no `rootSelfName` parameter and always passes `self_name=None`, so any
`_self_` seed entry raises the no-enclosing-context error; it is the
internal `_expand_defaults_list` that, given `self_name=s`, resolves a
`_self_` entry whose group has no recorded choice to `s`. -/
theorem claim4_amended (fuel : Nat) (s : String) (repo : Repo) :
    expand_defaults_list_full fuel (some s) [{ config_name := some "_self_" }] repo =
      .ok ([{ config_name := some s }], [{ config_name := some "_self_" }]) ∧
    expand_defaults_list fuel [{ config_name := some "_self_" }] repo =
      .error (.composition
        "self_name is not specified and defaults list contains a _self_ item") :=
  ⟨rfl, rfl⟩

/-- The three-element list used to refute C3: two plain entries of group
`g` at package `p1` followed by a rename directive `g@p1:p2`. -/
def renHeap : List DefaultElement :=
  [{ config_name := some "n1", config_group := some "g", package := some "p1" },
   { config_name := some "n2", config_group := some "g", package := some "p1" },
   { config_name := some "r", config_group := some "g", package := some "p1",
     package2 := some "p2" }]

/-- **C3 counterexample** — the rename pass applies the popped rename to
*every* matching entry, not to exactly the first one: on
`[g@p1=n1, g@p1=n2, g@p1:p2=r]` both `n1`'s and `n2`'s entries end with
package `p2`, although both had the rename's source package `p1` and the
claim allows only the first to be renamed. -/
theorem claim3_counterexample :
    process_renames renHeap [0, 1, 2] =
      .ok ([0, 1],
        [{ config_name := some "n1", config_group := some "g", package := some "p2" },
         { config_name := some "n2", config_group := some "g", package := some "p2" },
         { config_name := some "r", config_group := some "g", package := some "p1",
           package2 := some "p2" }]) ∧
    (renHeap.getD 0 default).package = some "p1" ∧
    (renHeap.getD 1 default).package = some "p1" ∧
    (renHeap.getD 0 default).config_group = (renHeap.getD 2 default).config_group ∧
    (renHeap.getD 1 default).config_group = (renHeap.getD 2 default).config_group :=
  ⟨rfl, rfl, rfl, rfl, rfl⟩

/-- `+a=n`: an additive override entry. -/
def addX : DefaultElement :=
  { config_name := some "n", config_group := some "a",
    from_override := true, is_add_only := true }

/-- **C5 counterexample** — override-conflict validation does not check an
entry against all entries declared before it: `_find_match_before` stops at
the first entry *value-equal* to the checked one.  On the list
`[+a=n, +a=n]` the second additive override has a same-group entry before
it, so the claim demands the "already in the defaults list" error, but
validation passes. -/
theorem claim5_counterexample :
    verify_no_add_conflicts [addX, addX] [0, 1] = .ok () ∧
    addX.from_override = true ∧ addX.is_delete = false ∧ addX.is_add_only = true ∧
    ([addX, addX].getD 0 default).fully_qualified_group_name =
      ([addX, addX].getD 1 default).fully_qualified_group_name :=
  ⟨rfl, rfl, rfl, rfl, rfl⟩

/-- **C8 counterexample** — a fragment whose defaults contain two `_self_`
entries does not always raise the duplicate-self composition error: when
the first `_self_` carries a config group, the `assert d.config_group is
None` in `_validate_self` fails first, so expansion ends with an assertion
failure instead of the composition error naming the fragment's path. -/
theorem claim8_counterexample :
    compute_element_defaults_list 3 { config_name := some "root" } repoSelf =
      .error .assertion ∧
    ((repoSelf.load "root" false).map
      (fun l => l.defaults_list.countP (fun d => d.config_name == some "_self_"))) =
      some 2 ∧
    Err.assertion ≠ Err.composition ("Duplicate _self_ defined in "
      ++ DefaultElement.config_path { config_name := some "root" }) :=
  ⟨rfl, rfl, by decide⟩

/-- **C9 counterexample** — the assertion in `_validate_self` does not hold
for every input that reaches it: a repository may return a loaded defaults
list containing a `_self_` entry with a non-`None` config group, and that
input reaches the assert and fails it (an `AssertionError`, not a
composition error). -/
theorem claim9_counterexample :
    compute_element_defaults_list 3 { config_name := some "root2" } repoSelf =
      .error .assertion ∧
    ((repoSelf.load "root2" false).map
      (fun l => l.defaults_list.map (fun d => (d.config_name, d.config_group)))) =
      some [(some "_self_", some "g")] :=
  ⟨rfl, rfl⟩

/-- Unfolding of one fuel level of the element expansion. -/
theorem computeImpl_succ (repo : Repo) (n i : Nat) (st : St) :
    computeImpl repo (n + 1) i st = computeBody repo (computeImpl repo n) i st := rfl

/-- **C6** — delete bookkeeping validation: after expansion the pass
succeeds, returning the list with all delete-directive entries stripped,
exactly when no registered `DeleteKey` with `must_delete` has a zero match
count; otherwise it raises the "Could not delete. No match for ..."
composition error for a zero-count must-delete key (so a delete declared
inside a fragment's own defaults, `must_delete = false`, is silently
ignored when it matches nothing). -/
theorem claim6_delete_validation (heap : List DefaultElement)
    (dg : List (DeleteKey × Nat)) (ids : List Nat) :
    (post_process_and_strip heap dg ids =
        .ok (ids.filter (fun i => !(heap.getD i default).is_delete)) ↔
      ∀ p ∈ dg, p.1.must_delete = true → p.2 ≠ 0) ∧
    ((∃ p ∈ dg, p.2 = 0 ∧ p.1.must_delete = true) →
      ∃ k : DeleteKey, k.must_delete = true ∧ (k, 0) ∈ dg ∧
        post_process_and_strip heap dg ids = .error (.composition
          ("Could not delete. No match for \x27" ++ k.reprStr
            ++ "\x27 in the defaults list."))) := by
  unfold post_process_and_strip post_process_deletes
  cases hf : dg.find? (fun p => p.2 == 0 && p.1.must_delete) with
  | none =>
    constructor
    · constructor
      · intro _ p hp hmd
        have h := List.find?_eq_none.mp hf p hp
        simp only [Bool.and_eq_true, beq_iff_eq, not_and] at h
        intro h0
        exact (h h0) hmd
      · intro _
        rfl
    · rintro ⟨p, hp, h0, hmd⟩
      have h := List.find?_eq_none.mp hf p hp
      simp [h0, hmd] at h
  | some q =>
    have hq := List.find?_some hf
    have hqm := List.mem_of_find?_eq_some hf
    simp only [Bool.and_eq_true, beq_iff_eq] at hq
    obtain ⟨hq0, hqd⟩ := hq
    have hmem : (q.1, 0) ∈ dg := by
      have : (q.1, 0) = q := by
        cases q
        simp_all
      rw [this]
      exact hqm
    constructor
    · constructor
      · intro h
        cases h
      · intro h
        exact absurd hq0 (h q hqm hqd)
    · intro _
      exact ⟨q.1, hqd, hmem, rfl⟩

/-- **C7** — element whose fragment the repository does not provide: if
`optional`, the expansion step succeeds with the entry returned as a
singleton, flagged skip-load with reason `missing_optional_config`; if not
optional, it raises the missing-configuration error carrying the searched
config path and the message built from the repository's non-schema
sources.  (The `skip_load` flag and `set_skip_load` are modelled from the
spec; the hypothesis on `delete_if_matching` states that no pending delete
absorbs the entry first.) -/
theorem claim7_missing_fragment (fuel i : Nat) (st : St) (repo : Repo) (nm : String)
    (hdel : delete_if_matching st i = (false, st))
    (hname : (heapGet st i).config_name = some nm)
    (hload : repo.load ((heapGet st i).config_path) (heapGet st i).primary = none) :
    ((heapGet st i).optional = true →
      computeImpl repo (fuel + 1) i st =
        .ok ([i], setElem st i
          { (heapGet st i) with
              skip_load := true, skip_load_reason := some "missing_optional_config" })) ∧
    ((heapGet st i).optional = false →
      computeImpl repo (fuel + 1) i st =
        .error (.missingConfig (some ((heapGet st i).config_path))
          (searchPathMsg repo ("Cannot find config : " ++ (heapGet st i).config_path
            ++ ", check that it\x27s in your config search path")))) := by
  constructor <;> intro hopt <;>
    simp [computeImpl_succ, computeBody, hdel, hname, hload, hopt, missing_config_error]

/-- Witness for C7 at a concrete optional entry with an empty repository. -/
theorem claim7_witness :
    delete_if_matching stOpt 0 = (false, stOpt) ∧
    (heapGet stOpt 0).config_name = some "m" ∧
    (⟨fun _ _ => none, []⟩ : Repo).load ((heapGet stOpt 0).config_path)
      (heapGet stOpt 0).primary = none ∧
    (heapGet stOpt 0).optional = true ∧
    computeImpl ⟨fun _ _ => none, []⟩ 1 0 stOpt =
      .ok ([0], setElem stOpt 0
        { (heapGet stOpt 0) with
            skip_load := true, skip_load_reason := some "missing_optional_config" }) :=
  ⟨rfl, rfl, rfl, rfl,
    (claim7_missing_fragment 0 0 stOpt ⟨fun _ _ => none, []⟩ "m" rfl rfl rfl).1 rfl⟩

/-- Witness for C6: a zero-count delete key that is not `must_delete` is
silently ignored and the delete entries are stripped. -/
theorem claim6_witness :
    (∀ p ∈ [((⟨"a", none, false⟩ : DeleteKey), 0)], p.1.must_delete = true → p.2 ≠ 0) ∧
    post_process_and_strip [delA, elA2] [(⟨"a", none, false⟩, 0)] [0, 1] =
      .ok ([0, 1].filter (fun i => !(([delA, elA2].getD i default).is_delete))) :=
  ⟨by decide,
    (claim6_delete_validation [delA, elA2] [(⟨"a", none, false⟩, 0)] [0, 1]).1.mpr
      (by decide)⟩

/-- ok-characterization of the override-conflict loop: it accepts exactly
when every processed entry satisfies `addConflictFree`. -/
theorem vnacAux_ok_iff (heap : List DefaultElement) (all : List Nat) (l : List Nat) :
    vnacAux heap all l = .ok () ↔ ∀ i ∈ l, addConflictFree heap all i := by
  induction l with
  | nil => simp [vnacAux]
  | cons i rest ih =>
    rw [vnacAux]
    simp only []
    cases hfo : (heap.getD i default).from_override with
    | false =>
      simp only [hfo, Bool.false_and, Bool.false_eq_true, if_false]
      rw [ih]
      constructor
      · intro h
        intro j hj
        rcases List.mem_cons.mp hj with hj | hj
        · subst hj
          intro hfo'
          rw [hfo] at hfo'
          cases hfo'
        · exact h j hj
      · intro h j hj
        exact h j (List.mem_cons_of_mem _ hj)
    | true =>
      cases hdel : (heap.getD i default).is_delete with
      | true =>
        simp only [hfo, hdel, Bool.not_true, Bool.and_false, Bool.false_eq_true, if_false]
        rw [ih]
        constructor
        · intro h j hj
          rcases List.mem_cons.mp hj with hj | hj
          · subst hj
            intro _ hdel'
            rw [hdel] at hdel'
            cases hdel'
          · exact h j hj
        · intro h j hj
          exact h j (List.mem_cons_of_mem _ hj)
      | false =>
        simp only [hfo, hdel, Bool.not_false, Bool.and_true, if_true]
        cases hao : (heap.getD i default).is_add_only with
        | true =>
          cases hm : find_match_before heap (heap.getD i default) all with
          | some j =>
            simp only [hao, hm, Option.isSome_some, Bool.and_true, if_true]
            constructor
            · intro h
              cases h
            · intro h
              have := (h i (List.mem_cons_self i rest) hfo hdel).1 hao
              rw [hm] at this
              cases this
          | none =>
            simp only [hao, hm, Option.isSome_none, Bool.and_false, Bool.false_eq_true,
              if_false, Bool.not_true, Option.isNone_none, Bool.false_and]
            rw [ih]
            constructor
            · intro h j hj
              rcases List.mem_cons.mp hj with hj | hj
              · subst hj
                intro _ _
                refine ⟨fun _ => hm, fun hao' => ?_⟩
                rw [hao] at hao'
                cases hao'
              · exact h j hj
            · intro h j hj
              exact h j (List.mem_cons_of_mem _ hj)
        | false =>
          cases hm : find_match_before heap (heap.getD i default) all with
          | none =>
            simp only [hao, hm, Option.isSome_none, Bool.and_false, if_false,
              Bool.not_false, Option.isNone_none, Bool.true_and, if_true]
            constructor
            · intro h
              cases h
            · intro h
              have := (h i (List.mem_cons_self i rest) hfo hdel).2 hao
              rw [hm] at this
              cases this
          | some j =>
            simp only [hao, hm, Option.isSome_some, Bool.and_false, Bool.false_eq_true,
              if_false, Bool.not_false, Option.isNone_some, Bool.false_and, Bool.true_and]
            rw [ih]
            constructor
            · intro h j' hj
              rcases List.mem_cons.mp hj with hj | hj
              · subst hj
                intro _ _
                refine ⟨fun hao' => ?_, fun _ => by rw [hm]; rfl⟩
                rw [hao] at hao'
                cases hao'
              · exact h j' hj
            · intro h j' hj
              exact h j' (List.mem_cons_of_mem _ hj)

/-- **C5 amended** — override-conflict validation accepts exactly when
every override-originated non-delete entry satisfies the corrected match
condition: the match scan runs from the start of the list and stops at the
first entry *value-equal* to the checked one (so a duplicate hides later
matches); an additive override must have no such match and a non-additive
override must have one.  The two error messages are as the claim states
them, shown on concrete lists. -/
theorem claim5_amended (heap : List DefaultElement) (ids : List Nat) :
    (verify_no_add_conflicts heap ids = .ok () ↔
      ∀ i ∈ ids, addConflictFree heap ids i) ∧
    verify_no_add_conflicts [elA1, addX] [0, 1] =
      .error (.composition
        "Could not add \x27a=n\x27. \x27a\x27 is already in the defaults list.") ∧
    verify_no_add_conflicts [ovrX] [0] =
      .error (.composition
        "Could not override \x27a\x27. No match in the defaults list.\nTo append to your default list use +a=n") := by
  refine ⟨?_, rfl, rfl⟩
  rw [verify_no_add_conflicts, vnacAux_ok_iff]
  constructor
  · intro h i hi
    exact h i (List.mem_reverse.mpr hi)
  · intro h i hi
    exact h i (List.mem_reverse.mp hi)

/-- Witness for C5's amended characterization on the empty list. -/
theorem claim5_witness :
    (∀ i ∈ ([] : List Nat), addConflictFree [] [] i) ∧
    verify_no_add_conflicts [] [] = .ok () :=
  ⟨by simp, (claim5_amended [] []).1.mpr (by simp)⟩

theorem getD_set_ne (l : List DefaultElement) (i j : Nat) (a : DefaultElement)
    (h : i ≠ j) : (l.set i a).getD j default = l.getD j default := by
  simp [List.getD, List.getElem?_set_ne h]

theorem getD_set_self (l : List DefaultElement) (i : Nat) (a : DefaultElement)
    (h : i < l.length) : (l.set i a).getD i default = a := by
  simp [List.getD, List.getElem?_set_self, h]

theorem lastRenameIdx_lt (heap : List DefaultElement) (ids : List Nat) (idx : Nat)
    (h : lastRenameIdx heap ids = some idx) : idx < ids.length := by
  induction ids generalizing idx with
  | nil => cases h
  | cons i rest ih =>
    rw [lastRenameIdx] at h
    cases hr : lastRenameIdx heap rest with
    | some j =>
      rw [hr] at h
      cases h
      have := ih j hr
      simp
      omega
    | none =>
      rw [hr] at h
      by_cases hp : (heap.getD i default).is_package_rename
      · rw [if_pos hp] at h
        cases h
        simp
      · rw [if_neg hp] at h
        cases h

theorem renameApply_length (renV : DefaultElement) (l : List Nat)
    (heap : List DefaultElement) : (renameApply renV heap l).1.length = heap.length := by
  induction l generalizing heap with
  | nil => rfl
  | cons i rest ih =>
    rw [renameApply]
    by_cases hm : is_matching renV (heap.getD i default)
    · simp only [hm, if_true]
      rw [ih]
      simp
    · simp only [hm, if_false]
      exact ih heap

theorem renameApply_not_mem (renV : DefaultElement) (l : List Nat)
    (heap : List DefaultElement) (j : Nat) (hj : j ∉ l) :
    (renameApply renV heap l).1.getD j default = heap.getD j default := by
  induction l generalizing heap with
  | nil => rfl
  | cons i rest ih =>
    have hji : j ≠ i := fun h => hj (h ▸ List.mem_cons_self i rest)
    have hjr : j ∉ rest := fun h => hj (List.mem_cons_of_mem _ h)
    rw [renameApply]
    by_cases hm : is_matching renV (heap.getD i default)
    · simp only [hm, if_true]
      rw [ih _ hjr, getD_set_ne _ _ _ _ (Ne.symm hji)]
    · simp only [hm, if_false]
      exact ih heap hjr

theorem renameApply_mem (renV : DefaultElement) (l : List Nat)
    (heap : List DefaultElement) (j : Nat) (hnd : l.Nodup)
    (hb : ∀ x ∈ l, x < heap.length) (hj : j ∈ l) :
    (renameApply renV heap l).1.getD j default =
      if is_matching renV (heap.getD j default) = true then
        { heap.getD j default with package := renV.get_subject_package }
      else heap.getD j default := by
  induction l generalizing heap with
  | nil => cases hj
  | cons i rest ih =>
    obtain ⟨hir, hndr⟩ := List.nodup_cons.mp hnd
    rw [renameApply]
    rcases List.mem_cons.mp hj with hji | hjr
    · subst hji
      by_cases hm : is_matching renV (heap.getD j default)
      · simp only [hm, if_true]
        rw [renameApply_not_mem _ _ _ _ hir,
          getD_set_self _ _ _ (hb j (List.mem_cons_self j rest))]
      · simp only [hm, Bool.false_eq_true, if_false]
        rw [renameApply_not_mem _ _ _ _ hir]
    · have hji : j ≠ i := fun h => hir (h ▸ hjr)
      by_cases hm : is_matching renV (heap.getD i default)
      · simp only [hm, if_true]
        have hb' : ∀ x ∈ rest, x <
            (heap.set i { heap.getD i default with
              package := renV.get_subject_package }).length := by
          intro x hx
          simpa using hb x (List.mem_cons_of_mem _ hx)
        rw [ih _ hndr hb' hjr, getD_set_ne _ _ _ _ (Ne.symm hji)]
      · simp only [hm, Bool.false_eq_true, if_false]
        exact ih heap hndr (fun x hx => hb x (List.mem_cons_of_mem _ hx)) hjr

theorem renameApply_flag_iff (renV : DefaultElement) (l : List Nat)
    (heap : List DefaultElement) :
    (renameApply renV heap l).2 = true ↔
      ∃ j ∈ l, is_matching renV (heap.getD j default) = true := by
  induction l generalizing heap with
  | nil => simp [renameApply]
  | cons i rest ih =>
    rw [renameApply]
    by_cases hm : is_matching renV (heap.getD i default)
    · simp only [hm, if_true]
      constructor
      · intro _
        exact ⟨i, List.mem_cons_self i rest, hm⟩
      · intro _
        trivial
    · simp only [hm, Bool.false_eq_true, if_false]
      rw [ih heap]
      constructor
      · rintro ⟨j, hj, hjm⟩
        exact ⟨j, List.mem_cons_of_mem _ hj, hjm⟩
      · rintro ⟨j, hj, hjm⟩
        rcases List.mem_cons.mp hj with hji | hjr
        · subst hji
          exact absurd hjm hm
        · exact ⟨j, hjr, hjm⟩

/-- **C3 amended** — rename resolution: while a rename directive remains,
the pass removes the rightmost one and applies its target package to
*every* entry of the remaining list whose group matches and whose current
package equals the rename's source package (`None` matching `None`) —
not only the first prior entry; if no entry matches it raises the
could-not-rename composition error, and when no rename remains the list is
returned unchanged. -/
theorem claim3_amended (heap : List DefaultElement) (ids : List Nat) :
    (lastRenameIdx heap ids = none → process_renames heap ids = .ok (ids, heap)) ∧
    (∀ idx, lastRenameIdx heap ids = some idx → ids.Nodup →
      (∀ x ∈ ids, x < heap.length) →
      ((∃ j ∈ ids.eraseIdx idx,
          is_matching (heap.getD (ids.getD idx 0) default) (heap.getD j default) = true) →
        process_renames heap ids =
          prAux (ids.eraseIdx idx).length
            (renameApply (heap.getD (ids.getD idx 0) default) heap (ids.eraseIdx idx)).1
            (ids.eraseIdx idx) ∧
        (∀ j ∈ ids.eraseIdx idx,
          (renameApply (heap.getD (ids.getD idx 0) default) heap
              (ids.eraseIdx idx)).1.getD j default =
            if is_matching (heap.getD (ids.getD idx 0) default)
                (heap.getD j default) = true then
              { heap.getD j default with
                  package := (heap.getD (ids.getD idx 0) default).get_subject_package }
            else heap.getD j default) ∧
        (∀ j, j ∉ ids.eraseIdx idx →
          (renameApply (heap.getD (ids.getD idx 0) default) heap
              (ids.eraseIdx idx)).1.getD j default = heap.getD j default)) ∧
      ((¬∃ j ∈ ids.eraseIdx idx,
          is_matching (heap.getD (ids.getD idx 0) default) (heap.getD j default) = true) →
        process_renames heap ids = .error (.composition
          ("Could not rename package. No match for \x27"
            ++ optStr (heap.getD (ids.getD idx 0) default).config_group ++ "@"
            ++ optStr (heap.getD (ids.getD idx 0) default).package
            ++ "\x27 in the defaults list")))) := by
  constructor
  · intro h
    rw [process_renames]
    cases hl : ids.length with
    | zero => rfl
    | succ n =>
      rw [prAux, h]
  · intro idx hidx hnd hb
    have hlt := lastRenameIdx_lt heap ids idx hidx
    have hlen : ids.length = (ids.length - 1) + 1 := by omega
    have herase : (ids.eraseIdx idx).length = ids.length - 1 := by
      rw [List.length_eraseIdx]
      simp [hlt]
    constructor
    · intro hex
      have hflag : (renameApply (heap.getD (ids.getD idx 0) default) heap
          (ids.eraseIdx idx)).2 = true :=
        (renameApply_flag_iff _ _ _).mpr hex
      refine ⟨?_, ?_, ?_⟩
      · rw [process_renames, hlen, prAux, hidx]
        simp only [hflag, if_true]
        rw [herase]
      · intro j hj
        exact renameApply_mem _ _ _ _
          ((List.eraseIdx_sublist ids idx).nodup hnd)
          (fun x hx => hb x ((List.eraseIdx_sublist ids idx).mem hx)) hj
      · intro j hj
        exact renameApply_not_mem _ _ _ _ hj
    · intro hex
      have hflag : (renameApply (heap.getD (ids.getD idx 0) default) heap
          (ids.eraseIdx idx)).2 = false := by
        cases hf : (renameApply (heap.getD (ids.getD idx 0) default) heap
            (ids.eraseIdx idx)).2 with
        | true => exact absurd ((renameApply_flag_iff _ _ _).mp hf) hex
        | false => rfl
      rw [process_renames, hlen, prAux, hidx]
      simp only [hflag, Bool.false_eq_true, if_false]

/-- Witness for C3's amended characterization at the counterexample list:
the rightmost rename is index 2, both earlier entries match, and the pass
steps to the list with the rename removed and both packages rewritten. -/
theorem claim3_witness :
    lastRenameIdx renHeap [0, 1, 2] = some 2 ∧
    ([0, 1, 2] : List Nat).Nodup ∧
    (∀ x ∈ ([0, 1, 2] : List Nat), x < renHeap.length) ∧
    (∃ j ∈ ([0, 1, 2] : List Nat).eraseIdx 2,
      is_matching (renHeap.getD (([0, 1, 2] : List Nat).getD 2 0) default)
        (renHeap.getD j default) = true) ∧
    process_renames renHeap [0, 1, 2] =
      prAux (([0, 1, 2] : List Nat).eraseIdx 2).length
        (renameApply (renHeap.getD (([0, 1, 2] : List Nat).getD 2 0) default) renHeap
          (([0, 1, 2] : List Nat).eraseIdx 2)).1
        (([0, 1, 2] : List Nat).eraseIdx 2) :=
  ⟨rfl, by decide, by decide, ⟨0, by decide, rfl⟩,
    (((claim3_amended renHeap [0, 1, 2]).2 2 rfl (by decide) (by decide)).1
      ⟨0, by decide, rfl⟩).1⟩

theorem getD_set_name (heap : List DefaultElement) (i j : Nat) (a : DefaultElement)
    (hname : a.config_name = (heap.getD i default).config_name) :
    ((heap.set i a).getD j default).config_name = (heap.getD j default).config_name := by
  by_cases hij : i = j
  · subst hij
    by_cases hlt : i < heap.length
    · rw [getD_set_self _ _ _ hlt, hname]
    · rw [List.set_eq_of_length_le (by omega)]
  · rw [getD_set_ne _ _ _ _ hij]

theorem isSelfNamed_set (heap : List DefaultElement) (i j : Nat) (a : DefaultElement)
    (hname : a.config_name = (heap.getD i default).config_name) :
    isSelfNamed (heap.set i a) j = isSelfNamed heap j := by
  rw [isSelfNamed, isSelfNamed, getD_set_name _ _ _ _ hname]

theorem getD_set_name_grp (heap : List DefaultElement) (i j : Nat) (g p : Option String) :
    ((heap.set i
        { heap.getD i default with config_group := g, package := p }).getD j
          default).config_name =
      (heap.getD j default).config_name :=
  getD_set_name _ _ _ _ rfl

theorem isSelfNamed_set_grp (heap : List DefaultElement) (i j : Nat) (g p : Option String) :
    isSelfNamed (heap.set i
      { heap.getD i default with config_group := g, package := p }) j =
      isSelfNamed heap j :=
  isSelfNamed_set _ _ _ _ rfl

theorem validateSelfAux_no_self (elemV : DefaultElement) (b : Bool)
    (l : List Nat) (heap : List DefaultElement)
    (h : ∀ i ∈ l, isSelfNamed heap i = false) :
    validateSelfAux elemV b heap l = .ok heap := by
  induction l with
  | nil => rfl
  | cons i rest ih =>
    have hi : ¬((heap.getD i default).config_name = some "_self_") := by
      have hf := h i (List.mem_cons_self i rest)
      rw [isSelfNamed, beq_eq_false_iff_ne] at hf
      exact hf
    rw [validateSelfAux, if_neg hi]
    exact ih (fun j hj => h j (List.mem_cons_of_mem _ hj))

theorem validateSelfAux_true_self (elemV : DefaultElement)
    (l : List Nat) (heap : List DefaultElement)
    (h : ∃ i ∈ l, isSelfNamed heap i = true) :
    validateSelfAux elemV true heap l =
      .error (.composition ("Duplicate _self_ defined in " ++ elemV.config_path)) := by
  induction l with
  | nil =>
    obtain ⟨i, hi, _⟩ := h
    cases hi
  | cons i rest ih =>
    by_cases hi : (heap.getD i default).config_name = some "_self_"
    · rw [validateSelfAux, if_pos hi, if_pos rfl]
    · rw [validateSelfAux, if_neg hi]
      apply ih
      obtain ⟨j, hj, hjs⟩ := h
      rcases List.mem_cons.mp hj with hji | hjr
      · subst hji
        rw [isSelfNamed, beq_iff_eq] at hjs
        exact absurd hjs hi
      · exact ⟨j, hjr, hjs⟩

theorem validateSelfAux_true_ok (elemV : DefaultElement)
    (l : List Nat) (heap heap' : List DefaultElement)
    (h : validateSelfAux elemV true heap l = .ok heap') :
    heap' = heap ∧ ∀ i ∈ l, isSelfNamed heap i = false := by
  induction l with
  | nil =>
    cases h
    exact ⟨rfl, by simp⟩
  | cons i rest ih =>
    by_cases hi : (heap.getD i default).config_name = some "_self_"
    · rw [validateSelfAux, if_pos hi, if_pos rfl] at h
      cases h
    · rw [validateSelfAux, if_neg hi] at h
      obtain ⟨heq, hall⟩ := ih h
      refine ⟨heq, ?_⟩
      intro j hj
      rcases List.mem_cons.mp hj with hji | hjr
      · subst hji
        rw [isSelfNamed, beq_eq_false_iff_ne]
        exact hi
      · exact hall j hjr

theorem validateSelfAux_names (elemV : DefaultElement) (b : Bool)
    (l : List Nat) (heap heap' : List DefaultElement)
    (h : validateSelfAux elemV b heap l = .ok heap') :
    (∀ j, (heap'.getD j default).config_name = (heap.getD j default).config_name) ∧
    heap'.length = heap.length := by
  induction l generalizing b heap with
  | nil =>
    cases h
    exact ⟨fun _ => rfl, rfl⟩
  | cons i rest ih =>
    by_cases hi : (heap.getD i default).config_name = some "_self_"
    · cases b with
      | true =>
        rw [validateSelfAux, if_pos hi, if_pos rfl] at h
        cases h
      | false =>
        by_cases hg : (heap.getD i default).config_group = none
        · rw [validateSelfAux, if_pos hi, if_neg Bool.false_ne_true,
            if_neg (fun hc => hc hg)] at h
          obtain ⟨hn, hl⟩ := ih _ _ h
          constructor
          · intro j
            rw [hn j, getD_set_name_grp]
          · rw [hl]
            simp
        · rw [validateSelfAux, if_pos hi, if_neg Bool.false_ne_true,
            if_pos (show (heap.getD i default).config_group ≠ none from hg)] at h
          cases h
    · rw [validateSelfAux, if_neg hi] at h
      exact ih _ _ h

theorem validateSelfAux_false_count (elemV : DefaultElement)
    (l : List Nat) (heap heap' : List DefaultElement)
    (h : validateSelfAux elemV false heap l = .ok heap') :
    l.countP (isSelfNamed heap) ≤ 1 := by
  induction l generalizing heap with
  | nil => simp
  | cons i rest ih =>
    by_cases hi : (heap.getD i default).config_name = some "_self_"
    · by_cases hg : (heap.getD i default).config_group = none
      · rw [validateSelfAux, if_pos hi, if_neg Bool.false_ne_true,
          if_neg (fun hc => hc hg)] at h
        obtain ⟨_, hall⟩ := validateSelfAux_true_ok elemV rest _ _ h
        have hz : rest.countP (isSelfNamed heap) = 0 := by
          rw [List.countP_eq_zero]
          intro j hj
          have hf := hall j hj
          rw [isSelfNamed_set_grp] at hf
          simp [hf]
        rw [List.countP_cons, hz]
        split <;> simp
      · rw [validateSelfAux, if_pos hi, if_neg Bool.false_ne_true,
          if_pos (show (heap.getD i default).config_group ≠ none from hg)] at h
        cases h
    · rw [validateSelfAux, if_neg hi] at h
      have hz : isSelfNamed heap i = false := by
        rw [isSelfNamed, beq_eq_false_iff_ne]
        exact hi
      rw [List.countP_cons, hz]
      simpa using ih _ h

theorem validateSelfAux_first_dup (elemV : DefaultElement)
    (l : List Nat) (heap : List DefaultElement)
    (h2 : 2 ≤ l.countP (isSelfNamed heap))
    (hg : ∀ i ∈ l, isSelfNamed heap i = true →
      (heap.getD i default).config_group = none) :
    validateSelfAux elemV false heap l =
      .error (.composition ("Duplicate _self_ defined in " ++ elemV.config_path)) := by
  induction l generalizing heap with
  | nil => simp at h2
  | cons i rest ih =>
    by_cases hi : (heap.getD i default).config_name = some "_self_"
    · have hsn : isSelfNamed heap i = true := by
        rw [isSelfNamed, beq_iff_eq]
        exact hi
      have hgn := hg i (List.mem_cons_self i rest) hsn
      rw [validateSelfAux, if_pos hi, if_neg Bool.false_ne_true,
        if_neg (fun hc => hc hgn)]
      apply validateSelfAux_true_self
      have hr : 0 < rest.countP (isSelfNamed heap) := by
        rw [List.countP_cons_of_pos _ rest hsn] at h2
        omega
      obtain ⟨j, hj, hjs⟩ := List.countP_pos_iff.mp hr
      refine ⟨j, hj, ?_⟩
      rw [isSelfNamed_set_grp]
      exact hjs
    · have hsn : isSelfNamed heap i = false := by
        rw [isSelfNamed, beq_eq_false_iff_ne]
        exact hi
      rw [validateSelfAux, if_neg hi]
      apply ih
      · rw [List.countP_cons, hsn] at h2
        simpa using h2
      · intro j hj hjs
        exact hg j (List.mem_cons_of_mem _ hj) hjs

theorem validateSelfAux_true_no_assert (elemV : DefaultElement)
    (l : List Nat) (heap : List DefaultElement) :
    validateSelfAux elemV true heap l ≠ .error .assertion := by
  induction l generalizing heap with
  | nil =>
    intro h
    cases h
  | cons i rest ih =>
    by_cases hi : (heap.getD i default).config_name = some "_self_"
    · rw [validateSelfAux, if_pos hi, if_pos rfl]
      intro h
      cases h
    · rw [validateSelfAux, if_neg hi]
      exact ih heap

theorem validateSelfAux_false_no_assert (elemV : DefaultElement)
    (l : List Nat) (heap : List DefaultElement)
    (hg : ∀ i ∈ l, isSelfNamed heap i = true →
      (heap.getD i default).config_group = none) :
    validateSelfAux elemV false heap l ≠ .error .assertion := by
  induction l generalizing heap with
  | nil =>
    intro h
    cases h
  | cons i rest ih =>
    by_cases hi : (heap.getD i default).config_name = some "_self_"
    · have hsn : isSelfNamed heap i = true := by
        rw [isSelfNamed, beq_iff_eq]
        exact hi
      have hgn := hg i (List.mem_cons_self i rest) hsn
      rw [validateSelfAux, if_pos hi, if_neg Bool.false_ne_true,
        if_neg (fun hc => hc hgn)]
      exact validateSelfAux_true_no_assert elemV rest _
    · rw [validateSelfAux, if_neg hi]
      exact ih heap (fun j hj => hg j (List.mem_cons_of_mem _ hj))

theorem validateSelfAux_overwrite (elemV : DefaultElement)
    (l : List Nat) (heap heap' : List DefaultElement)
    (hg : ∀ i ∈ l, isSelfNamed heap i = true →
      (heap.getD i default).config_group = none)
    (hb : ∀ i ∈ l, i < heap.length)
    (h : validateSelfAux elemV false heap l = .ok heap') :
    ∀ i ∈ l, isSelfNamed heap i = true →
      heap'.getD i default =
        { heap.getD i default with
            config_group := elemV.config_group, package := elemV.package } := by
  induction l generalizing heap with
  | nil =>
    intro i hi
    cases hi
  | cons i0 rest ih =>
    by_cases hi : (heap.getD i0 default).config_name = some "_self_"
    · have hsn : isSelfNamed heap i0 = true := by
        rw [isSelfNamed, beq_iff_eq]
        exact hi
      have hgn := hg i0 (List.mem_cons_self i0 rest) hsn
      rw [validateSelfAux, if_pos hi, if_neg Bool.false_ne_true,
        if_neg (fun hc => hc hgn)] at h
      obtain ⟨heq, hall⟩ := validateSelfAux_true_ok elemV rest _ _ h
      intro i hil his
      rcases List.mem_cons.mp hil with hii | hir
      · subst hii
        rw [heq, getD_set_self _ _ _ (hb i (List.mem_cons_self i rest))]
      · exfalso
        have hf := hall i hir
        rw [isSelfNamed_set_grp, his] at hf
        cases hf
    · rw [validateSelfAux, if_neg hi] at h
      intro i hil his
      rcases List.mem_cons.mp hil with hii | hir
      · subst hii
        rw [isSelfNamed, beq_iff_eq] at his
        exact absurd his hi
      · exact ih heap (fun j hj => hg j (List.mem_cons_of_mem _ hj))
          (fun j hj => hb j (List.mem_cons_of_mem _ hj)) h i hir his

theorem getD_append_left (heap l2 : List DefaultElement) (i : Nat)
    (h : i < heap.length) : (heap ++ l2).getD i default = heap.getD i default := by
  simp [List.getD, List.getElem?_append_left h]

/-- **C8 amended** — `_self_` normalization: a loaded defaults list with
two or more `_self_` entries raises the duplicate-self composition error
naming the enclosing element's config path, *provided* the `_self_`
entries reaching the check carry no config group (a grouped `_self_`
instead fails the internal `assert`, see the counterexample); with no
`_self_` entry an implicit leading self (a copy of the element, name
`_self_`, `from_override = False`) is inserted at the front; and whenever
normalization succeeds the effective list contains exactly one `_self_`
entry. -/
theorem claim8_amended (elemV : DefaultElement) (ids : List Nat) (st : St) :
    (2 ≤ ids.countP (isSelfNamed st.heap) →
      (∀ i ∈ ids, isSelfNamed st.heap i = true →
        (st.heap.getD i default).config_group = none) →
      validate_self elemV ids st =
        .error (.composition ("Duplicate _self_ defined in " ++ elemV.config_path))) ∧
    (ids.countP (isSelfNamed st.heap) = 0 →
      validate_self elemV ids st =
        .ok (st.heap.length :: ids,
          { st with heap := st.heap ++
            [{ elemV with config_name := some "_self_", from_override := false }] })) ∧
    ((∀ i ∈ ids, i < st.heap.length) →
      ∀ ids' st', validate_self elemV ids st = .ok (ids', st') →
        ids'.countP (isSelfNamed st'.heap) = 1) := by
  refine ⟨?_, ?_, ?_⟩
  · intro h2 hg
    rw [validate_self, validateSelfAux_first_dup elemV ids st.heap h2 hg]
  · intro h0
    have hall : ∀ i ∈ ids, isSelfNamed st.heap i = false := by
      rw [List.countP_eq_zero] at h0
      intro i hi
      cases hbool : isSelfNamed st.heap i with
      | false => rfl
      | true => exact absurd hbool (h0 i hi)
    have hany : (ids.any fun i =>
        (st.heap.getD i default).config_name == some "_self_") = false := by
      rw [List.any_eq_false]
      intro i hi
      have hf := hall i hi
      rw [isSelfNamed, beq_eq_false_iff_ne] at hf
      simp only [beq_iff_eq]
      exact hf
    rw [validate_self]
    simp only [validateSelfAux_no_self elemV false ids st.heap hall]
    rw [if_neg (ne_true_of_eq_false hany)]
    rfl
  · intro hb ids' st' h
    rw [validate_self] at h
    cases haux : validateSelfAux elemV false st.heap ids with
    | error e =>
      simp only [haux] at h
      cases h
    | ok heap' =>
      simp only [haux] at h
      obtain ⟨hn, hl⟩ := validateSelfAux_names elemV false ids st.heap heap' haux
      have hsn : ∀ j, isSelfNamed heap' j = isSelfNamed st.heap j := by
        intro j
        rw [isSelfNamed, isSelfNamed, hn j]
      by_cases hany : (ids.any fun i =>
          (heap'.getD i default).config_name == some "_self_") = true
      · rw [if_pos hany] at h
        cases h
        have hle := validateSelfAux_false_count elemV ids st.heap heap' haux
        have hcc : ids.countP (isSelfNamed heap') = ids.countP (isSelfNamed st.heap) :=
          List.countP_congr (fun x _ => by rw [hsn x])
        have hge : 0 < ids.countP (isSelfNamed heap') := by
          obtain ⟨i, hi, hp⟩ := List.any_eq_true.mp hany
          exact List.countP_pos_iff.mpr ⟨i, hi, hp⟩
        show ids.countP (isSelfNamed heap') = 1
        rw [hcc] at hge ⊢
        omega
      · rw [if_neg hany] at h
        cases h
        show (heap'.length :: ids).countP (isSelfNamed (heap' ++
          [{ elemV with config_name := some "_self_", from_override := false }])) = 1
        rw [List.countP_cons_of_pos _ ids (by rw [isSelfNamed]; simp [List.getD])]
        have hz : ids.countP (isSelfNamed (heap' ++
            [{ elemV with config_name := some "_self_", from_override := false }])) = 0 := by
          rw [List.countP_eq_zero]
          intro i hi
          have hlt : i < heap'.length := by
            rw [hl]
            exact hb i hi
          have hanyf : (ids.any fun j =>
              (heap'.getD j default).config_name == some "_self_") = false := by
            cases hv : (ids.any fun j =>
                (heap'.getD j default).config_name == some "_self_") with
            | false => rfl
            | true => exact absurd hv hany
          have hfa := List.any_eq_false.mp hanyf i hi
          rw [isSelfNamed, getD_append_left _ _ _ hlt]
          exact hfa
        rw [hz]

/-- Witness for C8's amended duplicate-self rule: two groupless `_self_`
entries raise the composition error naming `a/a1`. -/
theorem claim8_witness :
    2 ≤ ([0, 1] : List Nat).countP (isSelfNamed [selfPlain, selfPlain]) ∧
    (∀ i ∈ ([0, 1] : List Nat), isSelfNamed [selfPlain, selfPlain] i = true →
      (([selfPlain, selfPlain] : List DefaultElement).getD i default).config_group = none) ∧
    validate_self elA1 [0, 1] ⟨[selfPlain, selfPlain], [], []⟩ =
      .error (.composition "Duplicate _self_ defined in a/a1") :=
  ⟨by decide, by decide,
    (claim8_amended elA1 [0, 1] ⟨[selfPlain, selfPlain], [], []⟩).1 (by decide) (by decide)⟩

/-- **C9 amended** — the `assert d.config_group is None` in `_validate_self`
is not an invariant of all reachable inputs (see the counterexample); what
holds is: whenever every `_self_` entry of the list has no config group,
normalization never fails the assert, and on success it overwrites each
`_self_` entry's group and package with the enclosing element's. -/
theorem claim9_amended (elemV : DefaultElement) (ids : List Nat) (st : St)
    (hg : ∀ i ∈ ids, isSelfNamed st.heap i = true →
      (st.heap.getD i default).config_group = none)
    (hb : ∀ i ∈ ids, i < st.heap.length) :
    validate_self elemV ids st ≠ .error .assertion ∧
    (∀ ids' st', validate_self elemV ids st = .ok (ids', st') →
      ∀ i ∈ ids, isSelfNamed st.heap i = true →
        st'.heap.getD i default =
          { st.heap.getD i default with
              config_group := elemV.config_group, package := elemV.package }) := by
  constructor
  · intro hcontra
    rw [validate_self] at hcontra
    cases haux : validateSelfAux elemV false st.heap ids with
    | error e =>
      simp only [haux] at hcontra
      injection hcontra with h1
      exact validateSelfAux_false_no_assert elemV ids st.heap hg (by rw [haux, h1])
    | ok heap' =>
      simp only [haux] at hcontra
      by_cases hany : (ids.any fun i =>
          (heap'.getD i default).config_name == some "_self_") = true
      · rw [if_pos hany] at hcontra
        cases hcontra
      · rw [if_neg hany] at hcontra
        cases hcontra
  · intro ids' st' h i hi his
    rw [validate_self] at h
    cases haux : validateSelfAux elemV false st.heap ids with
    | error e =>
      simp only [haux] at h
      cases h
    | ok heap' =>
      simp only [haux] at h
      obtain ⟨hn, _⟩ := validateSelfAux_names elemV false ids st.heap heap' haux
      by_cases hany : (ids.any fun i =>
          (heap'.getD i default).config_name == some "_self_") = true
      · rw [if_pos hany] at h
        cases h
        exact validateSelfAux_overwrite elemV ids st.heap heap' hg hb haux i hi his
      · exfalso
        have hh : isSelfNamed heap' i = true := by
          rw [isSelfNamed, hn i]
          rw [isSelfNamed] at his
          exact his
        have hanyf : (ids.any fun j =>
            (heap'.getD j default).config_name == some "_self_") = false := by
          cases hv : (ids.any fun j =>
              (heap'.getD j default).config_name == some "_self_") with
          | false => rfl
          | true => exact absurd hv hany
        have hforall := List.any_eq_false.mp hanyf i hi
        rw [isSelfNamed] at hh
        exact hforall hh

/-- Witness for C9's amended assertion rule at a single groupless
`_self_` entry. -/
theorem claim9_witness :
    (∀ i ∈ ([0] : List Nat), isSelfNamed [selfPlain] i = true →
      (([selfPlain] : List DefaultElement).getD i default).config_group = none) ∧
    (∀ i ∈ ([0] : List Nat), i < ([selfPlain] : List DefaultElement).length) ∧
    validate_self elA1 [0] ⟨[selfPlain], [], []⟩ ≠ .error .assertion :=
  ⟨by decide, by decide,
    (claim9_amended elA1 [0] ⟨[selfPlain], [], []⟩ (by decide) (by decide)).1⟩

theorem dedupAux_counts (heap : List DefaultElement) (G : String) :
    ∀ (l : List Nat) (seen : List String),
      ((dedupAux heap seen l).countP
          (fun i => survivorPred G (heap.getD i default)) ≤ 1) ∧
      (seen.contains G = true →
        (dedupAux heap seen l).countP
          (fun i => survivorPred G (heap.getD i default)) = 0) := by
  intro l
  induction l with
  | nil =>
    intro seen
    exact ⟨by simp [dedupAux], fun _ => by simp [dedupAux]⟩
  | cons i rest ih =>
    intro seen
    cases hg : (heap.getD i default).config_group with
    | none =>
      have hstep : dedupAux heap seen (i :: rest) = i :: dedupAux heap seen rest := by
        rw [dedupAux]
        simp only [hg]
      have hpred : survivorPred G (heap.getD i default) = false := by
        rw [survivorPred, hg]
        rfl
      rw [hstep, List.countP_cons_of_neg (fun j => survivorPred G (heap.getD j default)) _ (ne_true_of_eq_false hpred)]
      exact ih seen
    | some g =>
      by_cases hseen : seen.contains (heap.getD i default).fully_qualified_group_name = true
      · have hstep : dedupAux heap seen (i :: rest) = dedupAux heap seen rest := by
          rw [dedupAux]
          simp only [hg, hseen, if_true]
        rw [hstep]
        exact ih seen
      · have hseenf : seen.contains (heap.getD i default).fully_qualified_group_name
            = false := by
          cases hv : seen.contains (heap.getD i default).fully_qualified_group_name with
          | false => rfl
          | true => exact absurd hv hseen
        by_cases hdel : (heap.getD i default).is_deleted = true
        · have hstep : dedupAux heap seen (i :: rest) = i :: dedupAux heap seen rest := by
            rw [dedupAux]
            simp only [hg, hseenf, Bool.false_eq_true, if_false, hdel, if_true]
          have hpred : survivorPred G (heap.getD i default) = false := by
            rw [survivorPred, hdel]
            simp
          rw [hstep, List.countP_cons_of_neg (fun j => survivorPred G (heap.getD j default)) _ (ne_true_of_eq_false hpred)]
          exact ih seen
        · have hdelf : (heap.getD i default).is_deleted = false := by
            cases hv : (heap.getD i default).is_deleted with
            | false => rfl
            | true => exact absurd hv hdel
          have hstep : dedupAux heap seen (i :: rest) =
              i :: dedupAux heap
                ((heap.getD i default).fully_qualified_group_name :: seen) rest := by
            rw [dedupAux]
            simp only [hg, hseenf, Bool.false_eq_true, if_false, hdelf]
          rw [hstep]
          by_cases hG : (heap.getD i default).fully_qualified_group_name = G
          · have hpred : survivorPred G (heap.getD i default) = true := by
              rw [survivorPred, hg, hdelf, hG]
              simp
            have hz := (ih ((heap.getD i default).fully_qualified_group_name :: seen)).2
              (by rw [List.contains_cons, hG]; simp)
            rw [List.countP_cons_of_pos (fun j => survivorPred G (heap.getD j default)) _ hpred, hz]
            constructor
            · omega
            · intro hGseen
              exfalso
              rw [hG] at hseenf
              rw [hseenf] at hGseen
              cases hGseen
          · have hbe : ((heap.getD i default).fully_qualified_group_name == G) = false :=
              beq_eq_false_iff_ne.mpr hG
            have hpred : survivorPred G (heap.getD i default) = false := by
              rw [survivorPred, hbe]
              simp
            rw [List.countP_cons_of_neg (fun j => survivorPred G (heap.getD j default)) _ (ne_true_of_eq_false hpred)]
            constructor
            · exact (ih _).1
            · intro hGseen
              exact (ih ((heap.getD i default).fully_qualified_group_name :: seen)).2
                (by rw [List.contains_cons, hGseen]; simp)

theorem dedupAux_ungrouped (heap : List DefaultElement) :
    ∀ (l : List Nat) (seen : List String),
      (dedupAux heap seen l).countP
          (fun i => ((heap.getD i default).config_group == none)) =
        l.countP (fun i => ((heap.getD i default).config_group == none)) := by
  intro l
  induction l with
  | nil =>
    intro seen
    rfl
  | cons i rest ih =>
    intro seen
    cases hg : (heap.getD i default).config_group with
    | none =>
      have hstep : dedupAux heap seen (i :: rest) = i :: dedupAux heap seen rest := by
        rw [dedupAux]
        simp only [hg]
      rw [hstep, List.countP_cons_of_pos (fun j => ((heap.getD j default).config_group == none)) _ (by show ((heap.getD i default).config_group == none) = true; rw [hg]; rfl),
        List.countP_cons_of_pos (fun j => ((heap.getD j default).config_group == none)) _ (by show ((heap.getD i default).config_group == none) = true; rw [hg]; rfl), ih seen]
    | some g =>
      have hpred : ((heap.getD i default).config_group == none) = false := by
        rw [hg]
        rfl
      by_cases hseen : seen.contains (heap.getD i default).fully_qualified_group_name = true
      · have hstep : dedupAux heap seen (i :: rest) = dedupAux heap seen rest := by
          rw [dedupAux]
          simp only [hg, hseen, if_true]
        rw [hstep, List.countP_cons_of_neg (fun j => ((heap.getD j default).config_group == none)) _ (ne_true_of_eq_false hpred), ih seen]
      · have hseenf : seen.contains (heap.getD i default).fully_qualified_group_name
            = false := by
          cases hv : seen.contains (heap.getD i default).fully_qualified_group_name with
          | false => rfl
          | true => exact absurd hv hseen
        by_cases hdel : (heap.getD i default).is_deleted = true
        · have hstep : dedupAux heap seen (i :: rest) = i :: dedupAux heap seen rest := by
            rw [dedupAux]
            simp only [hg, hseenf, Bool.false_eq_true, if_false, hdel, if_true]
          rw [hstep, List.countP_cons_of_neg (fun j => ((heap.getD j default).config_group == none)) _ (ne_true_of_eq_false hpred),
            List.countP_cons_of_neg (fun j => ((heap.getD j default).config_group == none)) _ (ne_true_of_eq_false hpred), ih seen]
        · have hdelf : (heap.getD i default).is_deleted = false := by
            cases hv : (heap.getD i default).is_deleted with
            | false => rfl
            | true => exact absurd hv hdel
          have hstep : dedupAux heap seen (i :: rest) =
              i :: dedupAux heap
                ((heap.getD i default).fully_qualified_group_name :: seen) rest := by
            rw [dedupAux]
            simp only [hg, hseenf, Bool.false_eq_true, if_false, hdelf]
          rw [hstep, List.countP_cons_of_neg (fun j => ((heap.getD j default).config_group == none)) _ (ne_true_of_eq_false hpred),
            List.countP_cons_of_neg (fun j => ((heap.getD j default).config_group == none)) _ (ne_true_of_eq_false hpred), ih]

theorem computeImpl_zero (repo : Repo) (i : Nat) (st : St) :
    computeImpl repo 0 i st = .error .fuel := rfl

theorem post_strip_ok (heap : List DefaultElement) (dg : List (DeleteKey × Nat))
    (ids ids2 : List Nat) (h : post_process_and_strip heap dg ids = .ok ids2) :
    ids2 = ids.filter (fun i => !(heap.getD i default).is_delete) := by
  rw [post_process_and_strip] at h
  cases hp : post_process_deletes dg with
  | error e =>
    simp only [hp] at h
    cases h
  | ok u =>
    simp only [hp] at h
    cases h
    rfl

theorem expandBody_ok (compute : Nat → St → Except Err (List Nat × St))
    (sn : Option String) (o : List DefaultElement) (e : List Nat) (st : St)
    (ids : List Nat) (st' : St)
    (h : expandBody compute sn o e st = .ok (ids, st')) :
    ∃ r3, ids = dedupAux st'.heap [] r3 := by
  simp only [expandBody] at h
  split at h
  · cases h
  · split at h
    · cases h
    · split at h
      · cases h
      · split at h
        · cases h
        · cases h
          exact ⟨_, rfl⟩

theorem computeImpl_ok (repo : Repo) (fuel i : Nat) (st : St)
    (ids : List Nat) (st' : St)
    (h : computeImpl repo fuel i st = .ok (ids, st')) :
    ids = [] ∨ ids = [i] ∨ ∃ r3, ids = dedupAux st'.heap [] r3 := by
  cases fuel with
  | zero =>
    rw [computeImpl_zero] at h
    cases h
  | succ n =>
    rw [computeImpl_succ] at h
    simp only [computeBody] at h
    split at h
    · cases h
      exact Or.inl rfl
    · split at h
      · cases h
      · split at h
        · split at h
          · cases h
            exact Or.inr (Or.inl rfl)
          · cases h
        · split at h
          · cases h
          · exact Or.inr (Or.inr (expandBody_ok _ _ _ _ _ _ _ h))

/-- **C1** — the dedup invariant: whenever `compute_element_defaults_list`
or `expand_defaults_list` returns normally, the returned list holds at most
one non-deleted entry per fully-qualified group name; the dedup pass keeps
every ungrouped entry; and an entry flagged `is_deleted` passes through the
dedup pass without marking its group as seen, so it does not block a later
real entry of the same group. -/
theorem claim1_dedup_invariant :
    (∀ fuel e repo out, compute_element_defaults_list fuel e repo = .ok out →
      ∀ G, survivorCount G out ≤ 1) ∧
    (∀ fuel ds repo out, expand_defaults_list fuel ds repo = .ok out →
      ∀ G, survivorCount G out ≤ 1) ∧
    (∀ (heap : List DefaultElement) (seen : List String) (l : List Nat),
      (dedupAux heap seen l).countP
          (fun i => ((heap.getD i default).config_group == none)) =
        l.countP (fun i => ((heap.getD i default).config_group == none))) ∧
    (∀ (heap : List DefaultElement) (seen : List String) (i : Nat) (l : List Nat),
      (heap.getD i default).config_group.isSome = true →
      seen.contains (heap.getD i default).fully_qualified_group_name = false →
      (heap.getD i default).is_deleted = true →
      dedupAux heap seen (i :: l) = i :: dedupAux heap seen l) := by
  have hmain : ∀ (heap : List DefaultElement) (st : St) (ids ids2 : List Nat)
      (hok : ids = [] ∨ ids = [0] ∨ ∃ r3, ids = dedupAux st.heap [] r3)
      (hheap : heap = st.heap)
      (hf : ids2 = ids.filter (fun i => !(st.heap.getD i default).is_delete))
      (G : String),
      survivorCount G (ids2.map (fun i => st.heap.getD i default)) ≤ 1 := by
    intro heap st ids ids2 hok hheap hf G
    rw [survivorCount, List.countP_map]
    show ids2.countP (fun i => survivorPred G (st.heap.getD i default)) ≤ 1
    have hle : ids2.countP (fun i => survivorPred G (st.heap.getD i default)) ≤
        ids.countP (fun i => survivorPred G (st.heap.getD i default)) := by
      rw [hf]
      exact (List.filter_sublist ids).countP_le _
    refine le_trans hle ?_
    rcases hok with hok | hok | ⟨r3, hok⟩
    · rw [hok]
      simp
    · rw [hok]
      exact le_trans (List.countP_le_length _) (by simp)
    · rw [hok]
      exact (dedupAux_counts st.heap G r3 []).1
  refine ⟨?_, ?_, ?_, ?_⟩
  · intro fuel e repo out h G
    rw [compute_element_defaults_list] at h
    cases h1 : computeImpl repo fuel 0 ⟨[e], [], []⟩ with
    | error er =>
      simp only [h1] at h
      cases h
    | ok t =>
      obtain ⟨ids, st⟩ := t
      simp only [h1] at h
      cases h2 : post_process_and_strip st.heap st.dg ids with
      | error er =>
        simp only [h2] at h
        cases h
      | ok ids2 =>
        simp only [h2] at h
        cases h
        have hok := computeImpl_ok repo fuel 0 ⟨[e], [], []⟩ ids st h1
        exact hmain st.heap st ids ids2 hok rfl (post_strip_ok _ _ _ _ h2) G
  · intro fuel ds repo out h G
    rw [expand_defaults_list] at h
    cases hX : expand_defaults_list_full fuel none ds repo with
    | error er =>
      rw [hX] at h
      cases h
    | ok pr =>
      rw [hX] at h
      obtain ⟨ret, eff⟩ := pr
      cases h
      rw [expand_defaults_list_full] at hX
      cases h1 : expandBody (computeImpl repo fuel) none ds (List.range ds.length)
          ⟨ds, (prePassAux ds.reverse [] []).1, (prePassAux ds.reverse [] []).2⟩ with
      | error er =>
        simp only [h1] at hX
        cases hX
      | ok t =>
        obtain ⟨ids, st⟩ := t
        simp only [h1] at hX
        cases h2 : post_process_and_strip st.heap st.dg ids with
        | error er =>
          simp only [h2] at hX
          cases hX
        | ok ids2 =>
          simp only [h2] at hX
          cases hX
          obtain ⟨r3, hr3⟩ := expandBody_ok _ _ _ _ _ _ _ h1
          exact hmain st.heap st ids ids2 (Or.inr (Or.inr ⟨r3, hr3⟩)) rfl
            (post_strip_ok _ _ _ _ h2) G
  · intro heap seen l
    exact dedupAux_ungrouped heap l seen
  · intro heap seen i l hg hseen hdel
    obtain ⟨g, hg'⟩ := Option.isSome_iff_exists.mp hg
    rw [dedupAux]
    simp only [hg', hseen, Bool.false_eq_true, if_false, hdel, if_true]

/-- Witness for C1 at a concrete expansion: the fragment `q` with no
nested defaults expands to itself, and the invariant bound holds at the
group name `a`. -/
theorem claim1_witness :
    compute_element_defaults_list 2 { config_name := some "q" } repoC =
      .ok [{ config_name := some "q" }] ∧
    survivorCount "a" [{ config_name := some "q" }] ≤ 1 :=
  ⟨rfl, claim1_dedup_invariant.1 2 { config_name := some "q" } repoC
    [{ config_name := some "q" }] rfl "a"⟩

/-- **C2** — last-declared name wins, first-declared position wins, across
nesting depths, on the parametric two-depth scenario family in both
arrangements.  First arrangement (nested entry declared first): the seed
list `[p, q, g=n2]` where fragment `p` declares the nested `g=n1`; the
expansion result names the group `n2` (the last-declared entry's name) and
places the group's single surviving entry right after `p` — the position
produced by the first-declared nested entry — while the later top-level
entry is deduplicated away; `n1` appears nowhere.  Second arrangement
(nested entry declared last): root fragment declaring `[g=n1, p]` where
fragment `p` declares the nested `g=n2`; the surviving entry keeps the
first-declared top-level position (before `p`'s own output) but carries
the last-declared name `n2`. -/
theorem claim2_last_declared_name_first_declared_position
    (g n1 n2 : String)
    (hgn : g ≠ "None") (_hne : n1 ≠ n2)
    (h1s : n1 ≠ "_self_") (h2s : n2 ≠ "_self_") (h2k : n2 ≠ "_keep_")
    (hi1 : interpMarker n1.data = false) (hi2 : interpMarker n2.data = false) :
    (∀ repo : Repo,
      repo.load "p" false =
        some ⟨[{ config_name := some n1, config_group := some g }]⟩ →
      repo.load "q" false = some ⟨[]⟩ →
      repo.load (g ++ "/" ++ n2) false = some ⟨[]⟩ →
      expand_defaults_list 5
        [{ config_name := some "p" }, { config_name := some "q" },
         { config_name := some n2, config_group := some g }] repo =
        .ok [{ config_name := some "p" },
             { config_name := some n2, config_group := some g },
             { config_name := some "q" }]) ∧
    (∀ repo : Repo,
      repo.load "root" false =
        some ⟨[{ config_name := some n1, config_group := some g },
               { config_name := some "p" }]⟩ →
      repo.load "p" false =
        some ⟨[{ config_name := some n2, config_group := some g }]⟩ →
      repo.load (g ++ "/" ++ n2) false = some ⟨[]⟩ →
      compute_element_defaults_list 5 { config_name := some "root" } repo =
        .ok [{ config_name := some "root" },
             { config_name := some n2, config_group := some g },
             { config_name := some "p" }]) := by
  have hgn' : (g == "None") = false := beq_eq_false_iff_ne.mpr hgn
  have h2k' : ((some n2 : Option String) == some "_keep_") = false := by
    rw [beq_eq_false_iff_ne]
    simp [h2k]
  have hr3 : List.range 3 = [0, 1, 2] := rfl
  constructor
  · intro repo hloadP hloadQ hloadG
    have hc5 : ∀ i st, computeImpl repo 5 i st =
        computeBody repo (computeImpl repo 4) i st := fun _ _ => rfl
    have hc4 : ∀ i st, computeImpl repo 4 i st =
        computeBody repo (computeImpl repo 3) i st := fun _ _ => rfl
    have hc3 : ∀ i st, computeImpl repo 3 i st =
        computeBody repo (computeImpl repo 2) i st := fun _ _ => rfl
    simp [expand_defaults_list, Except.map, expand_defaults_list_full, prePassAux,
      expandBody, mainLoop, regAux, hc5, hc4, hc3, computeBody, delete_if_matching,
      difmAux, deleteMatches, validate_self, validateSelfAux, allocAll, alloc, setElem,
      heapGet, gtcContains, gtcGet, gtcAdd, dgContains, dgAdd,
      DefaultElement.fully_qualified_group_name, DefaultElement.config_path,
      DefaultElement.is_package_rename, DefaultElement.is_interpolation,
      DefaultElement.get_subject_package, optStr, interpMarker,
      process_renames, prAux, lastRenameIdx, renameApply, is_matching,
      verify_no_add_conflicts, vnacAux, find_match_before,
      buildGtc2, deferredLoop, dedupAux, post_process_and_strip, post_process_deletes,
      hr3, hgn', h2k', h1s, h2s, hi1, hi2, hloadP, hloadQ, hloadG]
  · intro repo hloadR hloadP hloadG
    have hc5 : ∀ i st, computeImpl repo 5 i st =
        computeBody repo (computeImpl repo 4) i st := fun _ _ => rfl
    have hc4 : ∀ i st, computeImpl repo 4 i st =
        computeBody repo (computeImpl repo 3) i st := fun _ _ => rfl
    have hc3 : ∀ i st, computeImpl repo 3 i st =
        computeBody repo (computeImpl repo 2) i st := fun _ _ => rfl
    have hc2 : ∀ i st, computeImpl repo 2 i st =
        computeBody repo (computeImpl repo 1) i st := fun _ _ => rfl
    simp [compute_element_defaults_list, prePassAux,
      expandBody, mainLoop, regAux, hc5, hc4, hc3, hc2, computeBody,
      delete_if_matching, difmAux, deleteMatches, validate_self, validateSelfAux,
      allocAll, alloc, setElem, heapGet, gtcContains, gtcGet, gtcAdd, dgContains,
      dgAdd, DefaultElement.fully_qualified_group_name, DefaultElement.config_path,
      DefaultElement.is_package_rename, DefaultElement.is_interpolation,
      DefaultElement.get_subject_package, optStr, interpMarker,
      process_renames, prAux, lastRenameIdx, renameApply, is_matching,
      verify_no_add_conflicts, vnacAux, find_match_before,
      buildGtc2, deferredLoop, dedupAux, post_process_and_strip, post_process_deletes,
      hr3, hgn', h2k', h1s, h2s, hi1, hi2, hloadR, hloadP, hloadG]

/-- Witness for C2 at `g=a, n1=a1, n2=a2` with the concrete repositories
`repoC` (first arrangement) and `repoT` (second arrangement). -/
theorem claim2_witness :
    ("a" ≠ "None" ∧ "a1" ≠ "a2" ∧ "a1" ≠ "_self_" ∧ "a2" ≠ "_self_" ∧
      "a2" ≠ "_keep_" ∧ interpMarker "a1".data = false ∧
      interpMarker "a2".data = false) ∧
    expand_defaults_list 5
      [{ config_name := some "p" }, { config_name := some "q" }, elA2] repoC =
      .ok [{ config_name := some "p" }, elA2, { config_name := some "q" }] ∧
    compute_element_defaults_list 5 { config_name := some "root" } repoT =
      .ok [{ config_name := some "root" }, elA2, { config_name := some "p" }] :=
  ⟨⟨by decide, by decide, by decide, by decide, by decide, rfl, rfl⟩,
    (claim2_last_declared_name_first_declared_position "a" "a1" "a2"
      (by decide) (by decide) (by decide) (by decide) (by decide) rfl rfl).1
      repoC rfl rfl rfl,
    (claim2_last_declared_name_first_declared_position "a" "a1" "a2"
      (by decide) (by decide) (by decide) (by decide) (by decide) rfl rfl).2
      repoT rfl rfl rfl⟩

end Hydra
